/-
Verification of the seele-review automated code-review pipeline.

This file gives a shallow embedding, in Lean 4, of the pure computational
core of the service: hunk splitting and per-line numbering of unified
diffs (app/services/patch/utils.py), review merging and token-bounded diff
splitting (app/utils/token.py), the YAML repair flow
(app/services/agent/utils.py), the diff-record filter
(app/services/patch/github.py), webhook signature gates
(app/services/github.py, app/services/gitlab.py, main.py), the webhook
draft filters (app/routers/github.py, main.py) and the publish body and
position builders (app/services/publish/github.py,
app/services/publish/gitlab.py).  Python strings are Lean `String`s,
Python lists are Lean `List`s, Python dicts with known key sets are
structures with `Option` fields, and functions that raise are modelled
with `Except`.  External effects (HTTP, the LLM, the tiktoken encoder and
the YAML parser) are abstracted as parameters.
-/
import Mathlib

set_option maxRecDepth 10000

namespace Seele

/-! ## Python string helpers -/

/-- Whitespace characters stripped by Python `str.strip()`. -/
def pyWhite (c : Char) : Bool :=
  c = ' ' ∨ c = '\t' ∨ c = '\n' ∨ c = '\r' ∨ c = '\x0b' ∨ c = '\x0c'

/-- Python `str.strip()`: drop leading and trailing whitespace. -/
def pyStrip (s : String) : String :=
  String.mk (((s.data.dropWhile pyWhite).reverse.dropWhile pyWhite).reverse)

/-- ASCII lower-casing of one character (the fragment of Python
`str.lower()` relevant to the extension sets and wip/draft markers,
which are all ASCII). -/
def asciiLowerChar (c : Char) : Char :=
  if 'A' ≤ c ∧ c ≤ 'Z' then Char.ofNat (c.toNat + 32) else c

/-- ASCII fragment of Python `str.lower()`. -/
def asciiLower (s : String) : String :=
  String.mk (s.data.map asciiLowerChar)

/-- Python `pat in s` (substring test): some tail of `s` starts with `pat`. -/
def isSubstr (pat s : String) : Bool :=
  s.data.tails.any (fun t => pat.data.isPrefixOf t)

/-- Python `s.startswith(pre)`. -/
def pyStartsWith (s pre : String) : Bool :=
  pre.data.isPrefixOf s.data

/-- Helper for `pySplitLines`: the accumulator holds the current field. -/
def splitLinesAux : List Char → List Char → List String
  | [], cur => [String.mk cur]
  | c :: rest, cur =>
    if c = '\n' then String.mk cur :: splitLinesAux rest []
    else splitLinesAux rest (cur ++ [c])

/-- Python `s.split('\n')` (also `str.splitOn` behaviour used by the
source): split on every newline; the empty string yields `[""]`. -/
def pySplitLines (s : String) : List String :=
  splitLinesAux s.data []

/-- Python `sep.join(parts)`. -/
def joinSep (sep : String) : List String → String
  | [] => ""
  | x :: rest => rest.foldl (fun acc s => acc ++ sep ++ s) x

/-- Python `'\n'.join(lines)`. -/
def joinNL (lines : List String) : String :=
  joinSep "\n" lines

/-- Python `str.ljust`: pad on the right with spaces to width `w`. -/
def ljust (s : String) (w : Nat) : String :=
  s ++ String.mk (List.replicate (w - s.length) ' ')

/-! ## Hunk splitting — `split_hunk` (app/services/patch/utils.py lines 13-45) -/

/-- `Hunk` dataclass of app/services/patch/utils.py. -/
structure Hunk where
  old_start : Nat
  new_start : Nat
  hunk_lines : List String
deriving Repr, DecidableEq, Inhabited

/-- Leading decimal digits of a character list, with the remainder. -/
def takeDigits (cs : List Char) : List Char × List Char :=
  (cs.takeWhile Char.isDigit, cs.dropWhile Char.isDigit)

/-- Numeric value of a list of decimal digits. -/
def digitsVal (ds : List Char) : Nat :=
  ds.foldl (fun a c => a * 10 + (c.toNat - 48)) 0

/-- `re.match(r'@@ -(\d+),?(\d+)? \+(\d+),?(\d+)? @@', line)`, returning
groups 1 and 3 (the only groups the source reads).  `re.match` anchors at
the start of the line and allows arbitrary trailing text. -/
def parseHunkHeader (line : String) : Option (Nat × Nat) :=
  match line.data with
  | '@' :: '@' :: ' ' :: '-' :: rest =>
    let p1 := takeDigits rest
    if p1.1.isEmpty then none else
    let r1 := if p1.2.head? = some ',' then p1.2.tail else p1.2
    let r1 := r1.dropWhile Char.isDigit
    match r1 with
    | ' ' :: '+' :: rest2 =>
      let p3 := takeDigits rest2
      if p3.1.isEmpty then none else
      let r2 := if p3.2.head? = some ',' then p3.2.tail else p3.2
      let r2 := r2.dropWhile Char.isDigit
      match r2 with
      | ' ' :: '@' :: '@' :: _ => some (digitsVal p1.1, digitsVal p3.1)
      | _ => none
    | _ => none
  | _ => none

/-- `if match: current_hunk.old_start = ...; current_hunk.new_start = ...`
applied to the hunk that is current after the conditional flush. -/
def hunkHeaderSet (line : String) (h : Hunk) : Hunk :=
  match parseHunkHeader line with
  | some oldNew => { h with old_start := oldNew.1, new_start := oldNew.2 }
  | none => h

/-- Loop body of `split_hunk`: walk the lines; at every line that begins
with `@@` flush the current hunk if it has lines and parse the header
into the fresh hunk; append every line to the current hunk; flush the
final hunk when the input ends. -/
def splitHunkLoop : List String → Hunk → List Hunk → List Hunk
  | [], current, hunks =>
      if current.hunk_lines.isEmpty then hunks else hunks ++ [current]
  | line :: rest, current, hunks =>
      if pyStartsWith line "@@" then
        if current.hunk_lines.isEmpty then
          splitHunkLoop rest
            { hunkHeaderSet line current with hunk_lines := current.hunk_lines ++ [line] } hunks
        else
          splitHunkLoop rest
            { hunkHeaderSet line ⟨0, 0, []⟩ with hunk_lines := [line] } (hunks ++ [current])
      else
        splitHunkLoop rest { current with hunk_lines := current.hunk_lines ++ [line] } hunks

/-- `split_hunk` of app/services/patch/utils.py: split a diff string into
hunks at `@@` headers. -/
def split_hunk (diff : String) : List Hunk :=
  splitHunkLoop (pySplitLines diff) ⟨0, 0, []⟩ []

/-! ## Per-hunk line numbering — `computed_hunk_line_number`
(app/services/patch/utils.py lines 48-93) -/

/-- Loop state of `computed_hunk_line_number`: the two counters, the
collected `(head, line)` pairs, the two line-number maps (in insertion
order; keys are strictly increasing, so the association list is the
dict), and the running maximum head width. -/
structure HunkNumberState where
  old_no : Nat
  new_no : Nat
  temp : List (String × String)
  old_lines : List (Nat × String)
  new_lines : List (Nat × String)
  max_head_length : Nat
deriving Repr, DecidableEq

/-- One iteration of the `for line in hunk.hunk_lines[1:]` loop of
`computed_hunk_line_number`. -/
def hunkNumberStep (st : HunkNumberState) (line : String) : HunkNumberState :=
  if pyStartsWith line "-" then
    let head := "(" ++ toString st.old_no ++ ", )"
    { st with temp := st.temp ++ [(head, line)],
              old_lines := st.old_lines ++ [(st.old_no, line)],
              old_no := st.old_no + 1,
              max_head_length := max st.max_head_length head.length }
  else if pyStartsWith line "+" then
    let head := "( , " ++ toString st.new_no ++ ")"
    { st with temp := st.temp ++ [(head, line)],
              new_lines := st.new_lines ++ [(st.new_no, line)],
              new_no := st.new_no + 1,
              max_head_length := max st.max_head_length head.length }
  else
    let head := "(" ++ toString st.old_no ++ ", " ++ toString st.new_no ++ ")"
    { st with temp := st.temp ++ [(head, line)],
              old_lines := st.old_lines ++ [(st.old_no, line)],
              new_lines := st.new_lines ++ [(st.new_no, line)],
              old_no := st.old_no + 1,
              new_no := st.new_no + 1,
              max_head_length := max st.max_head_length head.length }

/-- `computed_hunk_line_number` of app/services/patch/utils.py: number
the lines after the hunk header, returning the padded annotated lines and
the new/old line maps.  (The source indexes `hunk.hunk_lines[0]`; an
empty `hunk_lines` would raise in Python and never arises from
`split_hunk`.) -/
def computed_hunk_line_number (hunk : Hunk) :
    List String × List (Nat × String) × List (Nat × String) :=
  match hunk.hunk_lines with
  | [] => ([], [], [])
  | first :: rest =>
    let st := rest.foldl hunkNumberStep ⟨hunk.old_start, hunk.new_start, [], [], [], 0⟩
    (first :: st.temp.map (fun p => ljust p.1 st.max_head_length ++ " " ++ p.2),
     st.new_lines, st.old_lines)

/-! Reference implementation of the claimed numbering rule, written from
the spec's words: walk the lines after the header with two counters
initialised to `old_start`/`new_start`; a `-` line gets prefix
`(old_no, )`, is recorded in the old map and advances only `old_no`; a
`+` line gets prefix `( , new_no)`, is recorded in the new map and
advances only `new_no`; any other line gets prefix `(old_no, new_no)`,
is recorded in both maps and advances both. -/

/-- Reference walker: prefix/line pairs. -/
def refTemp : List String → Nat → Nat → List (String × String)
  | [], _, _ => []
  | line :: rest, o, n =>
    if pyStartsWith line "-" then
      ("(" ++ toString o ++ ", )", line) :: refTemp rest (o + 1) n
    else if pyStartsWith line "+" then
      ("( , " ++ toString n ++ ")", line) :: refTemp rest o (n + 1)
    else
      ("(" ++ toString o ++ ", " ++ toString n ++ ")", line) :: refTemp rest (o + 1) (n + 1)

/-- Reference walker: old-file line map. -/
def refOldMap : List String → Nat → Nat → List (Nat × String)
  | [], _, _ => []
  | line :: rest, o, n =>
    if pyStartsWith line "-" then (o, line) :: refOldMap rest (o + 1) n
    else if pyStartsWith line "+" then refOldMap rest o (n + 1)
    else (o, line) :: refOldMap rest (o + 1) (n + 1)

/-- Reference walker: new-file line map. -/
def refNewMap : List String → Nat → Nat → List (Nat × String)
  | [], _, _ => []
  | line :: rest, o, n =>
    if pyStartsWith line "-" then refNewMap rest (o + 1) n
    else if pyStartsWith line "+" then (n, line) :: refNewMap rest o (n + 1)
    else (n, line) :: refNewMap rest (o + 1) (n + 1)

/-- Maximum head width over a list of prefix/line pairs, seeded at `m`. -/
def maxHeadLen (t : List (String × String)) (m : Nat) : Nat :=
  t.foldl (fun a p => max a p.1.length) m

/-! ## GitHub diff records and the code-file filter
(app/schemas/github/pull_request_diff.py, app/constants.py,
app/services/patch/github.py lines 70-105) -/

/-- `GithubDiffItem` model. -/
structure GithubDiffItem where
  diff : String
  new_path : String
  old_path : String
  new_file : Bool := false
  renamed_file : Bool := false
  deleted_file : Bool := false
  collapsed : Bool := false
  too_large : Bool := false
  generated_file : Bool := false
deriving Repr, DecidableEq

/-- `CODE_EXTENSIONS` of app/constants.py. -/
def CODE_EXTENSIONS : List String :=
  [".py", ".js", ".jsx", ".ts", ".tsx", ".json", ".html", ".css", ".scss",
   ".go", ".rs", ".java", ".kt", ".c", ".h", ".cpp", ".hpp", ".yml",
   ".yaml", ".toml", ".sh", ".sql"]

/-- `EXCLUDE_EXTENSIONS` of app/constants.py. -/
def EXCLUDE_EXTENSIONS : List String :=
  [".png", ".jpg", ".jpeg", ".gif", ".bmp", ".svg", ".ico",
   ".pdf", ".zip", ".tar", ".gz", ".rar", ".7z",
   ".exe", ".dll", ".so", ".dylib", ".bin",
   ".mp4", ".avi", ".mov", ".mp3", ".wav",
   ".ttf", ".woff", ".woff2", ".eot"]

/-- `'.' + item.new_path.rsplit('.', 1)[-1].lower()` when `'.' in new_path`,
else `None`. -/
def fileExt (path : String) : Option String :=
  if '.' ∈ path.data then
    some ("." ++ asciiLower (String.mk ((path.data.reverse.takeWhile (fun c => c ≠ '.')).reverse)))
  else none

/-- Python `file_ext in extension_set` (`None` is in neither set). -/
def extInList (e : Option String) (l : List String) : Bool :=
  match e with
  | some s => decide (s ∈ l)
  | none => false

/-- The per-item keep condition of `GithubPatchHandler.filter_code_files`:
not deleted, extension not excluded, not too large, not collapsed, not
generated, and (known code extension or non-empty diff text). -/
def githubKeepPred (item : GithubDiffItem) : Bool :=
  !item.deleted_file &&
  !(extInList (fileExt item.new_path) EXCLUDE_EXTENSIONS) &&
  (!item.too_large && !item.collapsed) &&
  !item.generated_file &&
  (extInList (fileExt item.new_path) CODE_EXTENSIONS || item.diff != "")

/-- `GithubPatchHandler.filter_code_files`. -/
def filter_code_files (items : List GithubDiffItem) : List GithubDiffItem :=
  items.filter githubKeepPred

/-- The keep rule exactly as the claim words it: keep iff the extension
is in the code set, OR the extension is not in the exclude set and the
patch text is non-empty (UTF-8 decodability is automatic for text
records); records flagged too_large, collapsed or generated are
dropped. -/
def claimKeepRule (item : GithubDiffItem) : Bool :=
  (!item.too_large && !item.collapsed && !item.generated_file) &&
  (extInList (fileExt item.new_path) CODE_EXTENSIONS ||
    (!(extInList (fileExt item.new_path) EXCLUDE_EXTENSIONS) && item.diff != ""))

/-- The claim's rule amended by the counterexample: deleted records are
also dropped. -/
def amendedKeepRule (item : GithubDiffItem) : Bool :=
  !item.deleted_file && claimKeepRule item

/-! ## Webhook signature verification (app/services/github.py lines
26-53 and app/services/gitlab.py lines 20-28) -/

/-- `GithubClient._verify_github_signature`.  `hmacHex secret payload`
abstracts `hmac.new(secret.encode(), payload, sha256).hexdigest()`;
`signature` is the `X-Hub-Signature-256` header (`none` when absent).
When the configured secret is empty the source prints a warning and
returns without checking. -/
def verify_github_signature (hmacHex : String → String → String)
    (github_webhook_secret : String) (signature : Option String)
    (payload : String) : Except String Unit :=
  if signature.getD "" = "" then
    Except.error "Missing X-Hub-Signature-256 header"
  else if github_webhook_secret = "" then
    Except.ok ()
  else if signature.getD "" = "sha256=" ++ hmacHex github_webhook_secret payload then
    Except.ok ()
  else
    Except.error "Invalid GitHub webhook signature"

/-- `GitlabClient._verify_gitlab_signature`: raises `HTTPException`
(status, detail) on failure. -/
def verify_gitlab_signature (gitlab_webhook_secret : String)
    (token : Option String) : Except (Nat × String) Unit :=
  if gitlab_webhook_secret = "" then
    Except.error (400, "Missing GITLAB_WEBHOOK_SECRET configuration")
  else
    match token with
    | none => Except.error (400, "Missing X-Gitlab-Token header")
    | some t =>
      if t = gitlab_webhook_secret then Except.ok ()
      else Except.error (401, "Invalid GitLab token")

/-! ## Webhook gates (app/routers/github.py lines 57-88 and the GitLab
handler of main.py lines 148-160) -/

/-- Outcome of the pre-fetch filtering stage of a webhook handler:
`skipped` returns the `{ok: true, skipped: ...}` response, `proceed`
continues towards fetch, review (the LLM call) and publish. -/
inductive WebhookDecision where
  | skipped (reason : String)
  | proceed
deriving Repr, DecidableEq

/-- The fields of the GitHub pull-request payload that the filtering
stage of `handle_github_webhook_trigger` can observe. -/
structure GithubPRPayload where
  action : String
  draft : Bool
  title : String
deriving Repr, DecidableEq

/-- Filtering stage of `handle_github_webhook_trigger`
(app/routers/github.py): event filter, action filter, then the draft
check `if pr.draft`.  The title is available in the payload but never
consulted by the gate. -/
def githubWebhookGate (x_github_event : Option String)
    (payload : GithubPRPayload) : WebhookDecision :=
  if x_github_event ≠ some "pull_request" then
    WebhookDecision.skipped ("event " ++ x_github_event.getD "None")
  else if ¬ (payload.action ∈ (["opened", "reopened", "synchronize"] : List String)) then
    WebhookDecision.skipped ("action " ++ payload.action)
  else if payload.draft then
    WebhookDecision.skipped "draft PR"
  else
    WebhookDecision.proceed

/-- The `object_attributes` fields the GitLab handler's filtering stage
reads. -/
structure GitlabMRAttrs where
  action : String
  state : String
  title : String
  work_in_progress : Bool
deriving Repr, DecidableEq

/-- Filtering stage of the GitLab webhook handler (main.py): object-kind
filter, action/state filter, then
`attrs.get("work_in_progress") or title.lower().startswith(("wip", "draft"))`. -/
def gitlabWebhookGate (object_kind : String) (attrs : GitlabMRAttrs) : WebhookDecision :=
  if object_kind ≠ "merge_request" then
    WebhookDecision.skipped ("kind " ++ object_kind)
  else if ¬ (attrs.action ∈ (["open", "reopen", "update"] : List String)
      ∧ attrs.state ∈ (["opened", "open"] : List String)) then
    WebhookDecision.skipped ("action/state " ++ attrs.action ++ "/" ++ attrs.state)
  else if attrs.work_in_progress
      || pyStartsWith (asciiLower attrs.title) "wip"
      || pyStartsWith (asciiLower attrs.title) "draft" then
    WebhookDecision.skipped "draft/WIP"
  else
    WebhookDecision.proceed

/-! ## Publisher (app/services/publish/github.py and
app/services/publish/gitlab.py) -/

/-- `Literal['old', 'new']` of the `Review` model. -/
inductive ReviewType where
  | new
  | old
deriving Repr, DecidableEq

/-- `Review` model (app/schemas/agent/review.py). -/
structure Review where
  new_path : String
  old_path : String
  type : ReviewType
  start_line : Int
  end_line : Int
  issue_header : String
  issue_content : String
deriving Repr, DecidableEq

/-- Python `str.replace` scan: non-overlapping, left to right.  The
fuel is structural bookkeeping only: every step consumes at least one
input character, so fuel equal to the input length never runs out. -/
def replaceGo (pat rep : List Char) : Nat → List Char → List Char
  | _, [] => []
  | 0, l => l
  | fuel + 1, c :: rest =>
    if pat.isPrefixOf (c :: rest) then
      rep ++ replaceGo pat rep fuel (rest.drop (pat.length - 1))
    else
      c :: replaceGo pat rep fuel rest

/-- Python `s.replace(pat, rep)` for the non-empty patterns the source
uses (Python treats an empty pattern specially; no call site passes
one). -/
def pyReplace (s pat rep : String) : String :=
  if pat.data.isEmpty then s
  else String.mk (replaceGo pat.data rep.data s.data.length s.data)

/-- `ISSUE_COMMENT_MARKDOWN_TEMPLATE` (identical in both publish
modules). -/
def ISSUE_COMMENT_MARKDOWN_TEMPLATE : String :=
  "<table><thead><tr><td><strong>Issue</strong></td><td><strong>Description</strong></td></tr></thead><tbody><tr><td>__issue_header__</td><td>__issue_content__</td></tr></tbody></table>"

/-- The rendered issue table: the template with both placeholders
replaced. -/
def issueCommentMarkdown (issue_header issue_content : String) : String :=
  pyReplace (pyReplace ISSUE_COMMENT_MARKDOWN_TEMPLATE "__issue_header__" issue_header)
    "__issue_content__" issue_content

/-- `AI_COMMENT_MARKER` (app/config.py line 28 and main.py line 27):
the idempotency marker named by the spec. -/
def AI_COMMENT_MARKER : String := "<!-- powered by seele-review -->"

/-- The JSON body of one GitHub review-comment POST
(`_publish_review_comment` data dict). -/
structure GithubReviewCommentCall where
  commit_id : String
  path : String
  line : Int
  body : String
  side : String
deriving Repr, DecidableEq

/-- One iteration of `GithubPublishService._publish_comments`: find the
matching diff item, render the body with the bot signature, and anchor
at `end_line` — with `path=new_path` on both sides and side
`RIGHT`/`LEFT` by review type.  `none` models the `continue` taken when
no diff item matches. -/
def githubCommentFor (commit_id bot_name : String)
    (diff_items : List GithubDiffItem) (r : Review) :
    Option GithubReviewCommentCall :=
  match diff_items.find? (fun item =>
      item.new_path == r.new_path || item.old_path == r.old_path) with
  | none => none
  | some _ =>
    if r.type = ReviewType.new then
      some ⟨commit_id, r.new_path, r.end_line,
            bot_name ++ "\n\n" ++ issueCommentMarkdown r.issue_header r.issue_content, "RIGHT"⟩
    else
      some ⟨commit_id, r.new_path, r.end_line,
            bot_name ++ "\n\n" ++ issueCommentMarkdown r.issue_header r.issue_content, "LEFT"⟩

/-- The sequence of review-comment POSTs issued by
`GithubPublishService._publish_comments` (a failed POST is logged and
skipped, which does not change the sequence of attempted calls). -/
def githubPublishComments (commit_id bot_name : String)
    (diff_items : List GithubDiffItem) (reviews : List Review) :
    List GithubReviewCommentCall :=
  reviews.filterMap (githubCommentFor commit_id bot_name diff_items)

/-- `diff_refs` of the merge-request object. -/
structure DiffRefs where
  base_sha : String
  head_sha : String
  start_sha : String
deriving Repr, DecidableEq

/-- The `position` object of one GitLab discussion POST. -/
structure GitlabPosition where
  position_type : String
  new_path : String
  old_path : String
  new_line : Option Int
  old_line : Option Int
  base_sha : String
  start_sha : String
  head_sha : String
deriving Repr, DecidableEq

/-- `GitlabPublishService._publish_line_comment`: body with bot
signature, and the position carrying both paths and
`new_line`/`old_line` set by review type (`None` models JSON null). -/
def gitlabLineComment (bot_name : String) (refs : DiffRefs)
    (new_path old_path : String) (line : Int) (content : String)
    (line_type : ReviewType) : String × GitlabPosition :=
  (bot_name ++ "\n\n" ++ content,
   ⟨"text", new_path, old_path,
    (if line_type = ReviewType.new then some line else none),
    (if line_type = ReviewType.old then some line else none),
    refs.base_sha, refs.start_sha, refs.head_sha⟩)

/-- The comment-mode loop of `GitlabPublishService.publish`: one
discussion POST per review, at `end_line`, with the rendered issue
table. -/
def gitlabPublishComments (bot_name : String) (refs : DiffRefs)
    (reviews : List Review) : List (String × GitlabPosition) :=
  reviews.map (fun r =>
    gitlabLineComment bot_name refs r.new_path r.old_path r.end_line
      (issueCommentMarkdown r.issue_header r.issue_content) r.type)

/-- Concrete diff item exercising the publisher (claim C3). -/
def c3Item : GithubDiffItem := ⟨"d", "a.py", "a.py", false, false, false, false, false, false⟩

/-- Concrete review exercising the publisher (claim C3). -/
def c3Review : Review := ⟨"a.py", "a.py", ReviewType.new, 1, 3, "hd", "ct"⟩

/-- The review-comment call built for `c3Review`. -/
def c3WitnessCall : GithubReviewCommentCall :=
  (githubCommentFor "cid" "bot" [c3Item] c3Review).getD ⟨"", "", 0, "", ""⟩

/-- Concrete diff item with distinct old/new paths (claim C4). -/
def c4Item : GithubDiffItem := ⟨"d", "b.py", "a.py", false, false, false, false, false, false⟩

/-- Concrete `type=old` review whose old and new paths differ (claim C4). -/
def c4Review : Review := ⟨"b.py", "a.py", ReviewType.old, 1, 4, "hd", "ct"⟩

/-- The review-comment call built for `c4Review`. -/
def c4WitnessCall : GithubReviewCommentCall :=
  (githubCommentFor "cid" "bot" [c4Item] c4Review).getD ⟨"", "", 0, "", ""⟩

/-! ## YAML repair and the parse-retry flow
(app/services/agent/utils.py) -/

/-- Field names recognised by `fix_yaml_format_issues`. -/
def validFields : List String :=
  ["newPath", "oldPath", "startLine", "endLine", "type", "issueHeader", "issueContent"]

/-- Fields rewritten as block scalars (`: |`). -/
def stringFields : List String :=
  ["newPath", "oldPath", "type", "issueHeader", "issueContent"]

/-- `line.strip().startswith('- newPath:') or line.strip().startswith('-newPath:')`. -/
def isReviewStart (l : String) : Bool :=
  pyStartsWith (pyStrip l) "- newPath:" || pyStartsWith (pyStrip l) "-newPath:"

/-- Split a trimmed line at its first colon: `t[:ci]` and `t[ci+1:]` for
`ci = t.index(':')` (only used when `':' in t`). -/
def splitFirstColon (t : String) : String × String :=
  (String.mk (t.data.takeWhile (fun c => c ≠ ':')),
   String.mk ((t.data.dropWhile (fun c => c ≠ ':')).tail))

/-- The `elif in_review_item` branch of the `fix_yaml_format_issues`
loop, applied to one line. -/
def fixReviewLine (line : String) : String :=
  let t := pyStrip line
  if t.data.contains ':' then
    let field_name := pyStrip (splitFirstColon t).1
    let field_value := pyStrip (splitFirstColon t).2
    if validFields.contains field_name then
      if stringFields.contains field_name then
        "    " ++ field_name ++ ": |"
      else
        "    " ++ field_name ++ ": " ++ field_value
    else
      "    " ++ t
  else if t ≠ "" then
    "      " ++ t
  else
    line

/-- The `for i, line in enumerate(lines)` loop of
`fix_yaml_format_issues`, carrying `in_review_item` and looking one line
ahead to close a review item. -/
def fixYamlLoop : List String → Bool → List String
  | [], _ => []
  | line :: rest, in_item =>
    if isReviewStart line then
      "  - newPath: |" :: fixYamlLoop rest true
    else if in_item then
      let in_item' :=
        match rest with
        | next :: _ => !(isReviewStart next)
        | [] => true
      fixReviewLine line :: fixYamlLoop rest in_item'
    else
      line :: fixYamlLoop rest in_item

/-- `fix_yaml_format_issues` of app/services/agent/utils.py. -/
def fix_yaml_format_issues (yaml_content : String) : String :=
  joinNL (fixYamlLoop (pySplitLines yaml_content) false)

/-- Outcome of one attempt to `yaml.safe_load` and validate a block:
`ok p` models no exception, with `p` the parsed review list (`none`
when the document lacks a `reviews` list); `yamlError` models a raised
`yaml.YAMLError`; `otherError` models any other exception (e.g. a
pydantic validation error). -/
inductive ParseOutcome (α : Type) where
  | ok (parsed : Option α)
  | yamlError (msg : String)
  | otherError (msg : String)
deriving Repr, DecidableEq

/-- The `YamlContent` result record (the fields the flow writes). -/
structure YamlContent (α : Type) where
  content : String
  fixedContent : Option String
  parsed : Option α
  error : Option String
  fixApplied : Bool
deriving Repr, DecidableEq

/-- The parse-and-repair flow of `extract_first_yaml_from_markdown`
(app/services/agent/utils.py lines 80-133) for an extracted block,
abstracting the YAML parser plus validation as `parse`.  The source sets
`fixApplied := True` before retrying, and on a second failure stores the
retry's error. -/
def yamlParseFlow {α : Type} (parse : String → ParseOutcome α)
    (yaml_content : String) : YamlContent α :=
  let result0 : YamlContent α := ⟨yaml_content, none, none, none, false⟩
  match parse yaml_content with
  | ParseOutcome.ok p => { result0 with parsed := p }
  | ParseOutcome.otherError e => { result0 with error := some e }
  | ParseOutcome.yamlError _ =>
    let fixed := fix_yaml_format_issues yaml_content
    let r1 := { result0 with fixedContent := some fixed, fixApplied := true }
    match parse fixed with
    | ParseOutcome.ok p => { r1 with parsed := p }
    | ParseOutcome.yamlError e2 => { r1 with error := some e2 }
    | ParseOutcome.otherError e2 => { r1 with error := some e2 }

/-- A parser that fails with `e1` on the raw block `- newPath: x` and
succeeds on anything else (claim C8's witness). -/
def c8Parse : String → ParseOutcome Unit :=
  fun s => if s = "- newPath: x" then ParseOutcome.yamlError "e1"
           else ParseOutcome.ok (some ())

/-! ## Token-bounded diff splitting (app/utils/token.py lines 42-200) -/

/-- An abstract tiktoken encoding: an `encode`/`decode` pair. -/
structure Encoding where
  encode : String → List Nat
  decode : List Nat → String

/-- `TokenHandler.count_tokens`. -/
def count_tokens (enc : Encoding) (text : String) : Nat :=
  (enc.encode text).length

/-- The `while start < len(tokens)` loop of
`TokenHandler.split_by_tokens`.  The fuel is structural bookkeeping:
with the source's defaults (`limit > chunk_overlap`) every iteration
advances `start`, so fuel `tokens.length + 1` never runs out (the
source loops forever when `chunk_overlap ≥ limit`). -/
def splitByTokensLoop (enc : Encoding) (tokens : List Nat)
    (limit overlap : Nat) : Nat → Nat → List String → List String
  | 0, _, acc => acc
  | fuel + 1, start, acc =>
    let e := min (start + limit) tokens.length
    let chunk := enc.decode ((tokens.drop start).take (e - start))
    if e < tokens.length then
      splitByTokensLoop enc tokens limit overlap fuel (e - overlap) (acc ++ [chunk])
    else
      acc ++ [chunk]

/-- `TokenHandler.split_by_tokens`. -/
def split_by_tokens (enc : Encoding) (text : String) (limit overlap : Nat) :
    List String :=
  let tokens := enc.encode text
  if tokens.length ≤ limit then [text]
  else splitByTokensLoop enc tokens limit overlap (tokens.length + 1) 0 []

/-- File-marker test of the header phase of `split_diff_by_files`:
`## new_path:` or `## old_path:`. -/
def isFileMarker (l : String) : Bool :=
  pyStartsWith l "## new_path:" || pyStartsWith l "## old_path:"

/-- The file-collection loop of `split_diff_by_files`: current file
lines, the `in_file` flag and the collected files; a one-line lookahead
closes the current file just before the next `## new_path:` marker. -/
def collectFiles : List String → List String → Bool → List String → List String
  | [], current, _, files =>
    if current ≠ [] then files ++ [joinNL current] else files
  | line :: rest, current, in_file, files =>
    if pyStartsWith line "## new_path:" then
      collectFiles rest [line] true
        (if current ≠ [] then files ++ [joinNL current] else files)
    else if in_file then
      match rest with
      | next :: _ =>
        if pyStartsWith next "## new_path:" then
          collectFiles rest [] false (files ++ [joinNL (current ++ [line])])
        else
          collectFiles rest (current ++ [line]) true files
      | [] => files ++ [joinNL (current ++ [line])]
    else
      collectFiles rest current in_file files

/-- Python `'\n\n'.join(parts)`. -/
def join2 (parts : List String) : String :=
  joinSep "\n\n" parts

/-- State of the chunk-packing loop of `split_diff_by_files`. -/
structure PackState where
  chunks : List String
  current_chunk : List String
  current_tokens : Nat
deriving Repr, DecidableEq

/-- One iteration of the `for file_diff in files` packing loop of
`split_diff_by_files`: an oversized file flushes the current chunk and
is sub-split by token windows; otherwise the file is added to the
current chunk when it fits (`+2` for the separator) or starts a new
chunk. -/
def packStep (enc : Encoding) (limit overlap : Nat) (st : PackState)
    (file_diff : String) : PackState :=
  let ft := count_tokens enc file_diff
  if ft > limit then
    ⟨(if st.current_chunk ≠ [] then st.chunks ++ [join2 st.current_chunk] else st.chunks)
      ++ split_by_tokens enc file_diff limit overlap, [], 0⟩
  else if st.current_tokens + ft + 2 ≤ limit then
    { st with current_chunk := st.current_chunk ++ [file_diff],
              current_tokens := st.current_tokens + ft + 2 }
  else
    ⟨(if st.current_chunk ≠ [] then st.chunks ++ [join2 st.current_chunk] else st.chunks),
     [file_diff], ft⟩

/-- Final flush of the packing loop (`if current_chunk: chunks.append`). -/
def packFinish (st : PackState) : List String :=
  if st.current_chunk ≠ [] then st.chunks ++ [join2 st.current_chunk] else st.chunks

/-- The header preserved before the first file marker:
`'\n'.join(header_lines).strip()`. -/
def diffHeader (diff_content : String) : String :=
  pyStrip (joinNL ((pySplitLines diff_content).takeWhile (fun l => !(isFileMarker l))))

/-- `TokenHandler.split_diff_by_files`: preserve the header before the
first file marker, collect per-file segments at `## new_path:`
boundaries, then greedily pack files into token-bounded chunks, seeding
the first chunk with the header when one is present. -/
def split_diff_by_files (enc : Encoding) (limit overlap : Nat)
    (diff_content : String) : List String :=
  packFinish
    ((collectFiles ((pySplitLines diff_content).dropWhile (fun l => !(isFileMarker l)))
        [] false []).foldl
      (packStep enc limit overlap)
      (if diffHeader diff_content ≠ "" then
        ⟨[], [diffHeader diff_content], count_tokens enc (diffHeader diff_content)⟩
       else ⟨[], [], 0⟩))

/-- A one-token-per-character encoding instantiating the abstract
encoder (claim C7's concrete inputs). -/
def charEncoding : Encoding :=
  ⟨fun s => s.data.map Char.toNat, fun ts => String.mk (ts.map Char.ofNat)⟩

/-- A diff whose header plus two file segments exceed a 60-token budget
(claim C7's concrete input). -/
def c7Diff : String :=
  "commit message: m\n## new_path: a\nAA\n## new_path: b\nBBBBBBBBBBBBBBBBBBBBBBBBBBBBBB"

/-! ## Review merging (app/utils/token.py lines 202-328) -/

/-- A review dict as the merge loop reads it: exactly the keys the
source consults, each optional (an absent key is `none`). -/
structure PyReview where
  newPath : Option String := none
  new_path : Option String := none
  file_path : Option String := none
  oldPath : Option String := none
  old_path : Option String := none
  startLine : Option Int := none
  start_line : Option Int := none
  line_number : Option Int := none
  endLine : Option Int := none
  end_line : Option Int := none
  type : Option String := none
  issueContent : Option String := none
  issue_content : Option String := none
  comment : Option String := none
deriving Repr, DecidableEq

/-- Python `a or b` over a string-valued `dict.get`: `None` and `""`
are falsy and fall through to the default. -/
def pyOrStr : Option String → String → String
  | some s, d => if s = "" then d else s
  | none, d => d

/-- Python `a or b` over an int-valued `dict.get`: `None` and `0` are
falsy and fall through to the default. -/
def pyOrInt : Option Int → Int → Int
  | some v, d => if v = 0 then d else v
  | none, d => d

/-- `review.get('newPath') or review.get('new_path') or review.get('file_path', '')`. -/
def reviewNewPath (r : PyReview) : String :=
  pyOrStr r.newPath (pyOrStr r.new_path (r.file_path.getD ""))

/-- `review.get('startLine') or review.get('start_line') or review.get('line_number', 0)`. -/
def reviewStartLine (r : PyReview) : Int :=
  pyOrInt r.startLine (pyOrInt r.start_line (r.line_number.getD 0))

/-- `review.get('endLine') or review.get('end_line') or start_line`. -/
def reviewEndLine (r : PyReview) : Int :=
  pyOrInt r.endLine (pyOrInt r.end_line (reviewStartLine r))

/-- `review.get('type', 'new')`. -/
def reviewTypeStr (r : PyReview) : String :=
  r.type.getD "new"

/-- The dedup identity key `(new_path, start_line, end_line, type)`. -/
abbrev RKey : Type := String × Int × Int × String

/-- `key = (new_path, start_line, end_line, review_type)`. -/
def reviewKey (r : PyReview) : RKey :=
  (reviewNewPath r, reviewStartLine r, reviewEndLine r, reviewTypeStr r)

/-- `review.get('issueContent') or review.get('issue_content') or review.get('comment', '')`. -/
def reviewContent (r : PyReview) : String :=
  pyOrStr r.issueContent (pyOrStr r.issue_content (r.comment.getD ""))

/-- The duplicate branch of the dedup loop: append the newcomer's
content to the kept item with a `---` separator (then `strip`) unless
it is empty or already a substring of the kept content; write back to
`issueContent`, `issue_content` or `comment` by key presence. -/
def mergeContentInto (existing r : PyReview) : PyReview :=
  if (reviewContent r != "") && !(isSubstr (reviewContent r) (reviewContent existing)) then
    if existing.issueContent.isSome then
      { existing with issueContent := some (pyStrip (reviewContent existing ++ "\n---\n" ++ reviewContent r)) }
    else if existing.issue_content.isSome then
      { existing with issue_content := some (pyStrip (reviewContent existing ++ "\n---\n" ++ reviewContent r)) }
    else
      { existing with comment := some (pyStrip (reviewContent existing ++ "\n---\n" ++ reviewContent r)) }
  else existing

/-- `ChunkResult` (app/utils/token.py lines 7-14), with `result` the
parsed review list: the source's flattening feeds exactly these lists
into the dedup loop (a falsy/empty result contributes nothing, as its
`continue` does; dicts with a `reviews` key reduce to their list). -/
structure ChunkResult where
  chunk_index : Nat
  content : String
  token_count : Nat
  result : List PyReview
deriving Repr, DecidableEq

/-- The dedup loop of `merge_reviews`: `unique_reviews` is an ordered
dict, modelled as an association list in insertion order; a duplicate
key updates the stored review in place. -/
def mergeReviewsLoop : List PyReview → List (RKey × PyReview) → List (RKey × PyReview)
  | [], acc => acc
  | r :: rest, acc =>
    if acc.any (fun p => decide (p.1 = reviewKey r)) then
      mergeReviewsLoop rest
        (acc.map (fun p => if p.1 = reviewKey r then (p.1, mergeContentInto p.2 r) else p))
    else
      mergeReviewsLoop rest (acc ++ [(reviewKey r, r)])

/-- `TokenHandler.merge_reviews`: flatten the chunk results, then dedup
by the identity key with first-occurrence-wins and in-place content
merging; the output is the dict's values in insertion order. -/
def merge_reviews (chunk_results : List ChunkResult) : List PyReview :=
  (mergeReviewsLoop ((chunk_results.map ChunkResult.result).flatten) []).map Prod.snd

/-- Reference merge written from the claim's words: walk the flattened
reviews in order; the first occurrence of each identity key is kept,
and every later occurrence with the same key is folded into it by the
content-merge step. -/
def specMergeSeen : List PyReview → List RKey → List (RKey × PyReview)
  | [], _ => []
  | r :: rest, seen =>
    if reviewKey r ∈ seen then specMergeSeen rest seen
    else (reviewKey r,
          (rest.filter (fun x => decide (reviewKey x = reviewKey r))).foldl mergeContentInto r)
        :: specMergeSeen rest (reviewKey r :: seen)

end Seele

namespace Seele

/-! ## Lemmas on the hunk loop -/

theorem splitHunkLoop_acc (lines : List String) :
    ∀ current hunks, splitHunkLoop lines current hunks
      = hunks ++ splitHunkLoop lines current [] := by
  induction lines with
  | nil =>
    intro current hunks
    by_cases hc : current.hunk_lines.isEmpty
    · simp only [splitHunkLoop, if_pos hc, List.append_nil]
    · simp only [splitHunkLoop, if_neg hc, List.nil_append]
  | cons line rest ih =>
    intro current hunks
    by_cases hb : pyStartsWith line "@@"
    · by_cases hc : current.hunk_lines.isEmpty
      · simp only [splitHunkLoop, if_pos hb, if_pos hc]
        exact ih _ _
      · simp only [splitHunkLoop, if_pos hb, if_neg hc]
        rw [ih _ (hunks ++ [current]), ih _ ([] ++ [current])]
        simp
    · simp only [splitHunkLoop, if_neg hb]
      exact ih _ _

theorem splitHunkLoop_flatten (lines : List String) :
    ∀ current hunks,
      ((splitHunkLoop lines current hunks).map Hunk.hunk_lines).flatten
        = ((hunks.map Hunk.hunk_lines).flatten) ++ current.hunk_lines ++ lines := by
  induction lines with
  | nil =>
    intro current hunks
    by_cases hc : current.hunk_lines.isEmpty
    · rw [List.isEmpty_iff] at hc
      simp [splitHunkLoop, hc, List.isEmpty_iff]
    · have hc' : current.hunk_lines ≠ [] := by simpa [List.isEmpty_iff] using hc
      simp [splitHunkLoop, if_neg hc, hc']
  | cons line rest ih =>
    intro current hunks
    by_cases hb : pyStartsWith line "@@"
    · by_cases hc : current.hunk_lines.isEmpty
      · rw [List.isEmpty_iff] at hc
        simp only [splitHunkLoop, if_pos hb, if_pos (List.isEmpty_iff.mpr hc)]
        rw [ih]
        simp [hc]
      · simp only [splitHunkLoop, if_pos hb, if_neg hc]
        rw [ih]
        simp
    · simp only [splitHunkLoop, if_neg hb]
      rw [ih]
      simp

theorem splitHunkLoop_head (lines : List String) :
    ∀ cs : List String,
      cs ++ lines.takeWhile (fun l => !(pyStartsWith l "@@")) ≠ [] →
      (splitHunkLoop lines ⟨0, 0, cs⟩ []).head?
        = some ⟨0, 0, cs ++ lines.takeWhile (fun l => !(pyStartsWith l "@@"))⟩ := by
  induction lines with
  | nil =>
    intro cs h
    simp only [List.takeWhile_nil, List.append_nil] at h ⊢
    have hc : ¬ ((⟨0, 0, cs⟩ : Hunk).hunk_lines.isEmpty = true) := by
      simpa [List.isEmpty_iff] using h
    simp [splitHunkLoop, if_neg hc, h]
  | cons line rest ih =>
    intro cs h
    by_cases hl : pyStartsWith line "@@"
    · have htw : (line :: rest).takeWhile (fun l => !(pyStartsWith l "@@")) = [] := by
        simp [List.takeWhile_cons, hl]
      rw [htw] at h ⊢
      simp only [List.append_nil] at h ⊢
      have hcs : ¬ ((⟨0, 0, cs⟩ : Hunk).hunk_lines.isEmpty = true) := by
        simpa [List.isEmpty_iff] using h
      simp only [splitHunkLoop, if_pos hl, if_neg hcs]
      rw [splitHunkLoop_acc]
      simp
    · have htw : (line :: rest).takeWhile (fun l => !(pyStartsWith l "@@"))
          = line :: rest.takeWhile (fun l => !(pyStartsWith l "@@")) := by
        simp [List.takeWhile_cons, hl]
      rw [htw]
      simp only [splitHunkLoop, if_neg hl]
      have := ih (cs ++ [line]) (by simp)
      simpa using this

/-! ## Lemmas relating the numbering loop to the reference walker -/

theorem foldl_hunkNumberStep_temp (rest : List String) :
    ∀ st : HunkNumberState,
      (rest.foldl hunkNumberStep st).temp = st.temp ++ refTemp rest st.old_no st.new_no := by
  induction rest with
  | nil => intro st; simp [refTemp]
  | cons line rs ih =>
    intro st
    by_cases h1 : pyStartsWith line "-"
    · simp [List.foldl_cons, ih, hunkNumberStep, refTemp, h1]
    · by_cases h2 : pyStartsWith line "+" <;>
        simp [List.foldl_cons, ih, hunkNumberStep, refTemp, h1, h2]

theorem foldl_hunkNumberStep_old (rest : List String) :
    ∀ st : HunkNumberState,
      (rest.foldl hunkNumberStep st).old_lines
        = st.old_lines ++ refOldMap rest st.old_no st.new_no := by
  induction rest with
  | nil => intro st; simp [refOldMap]
  | cons line rs ih =>
    intro st
    by_cases h1 : pyStartsWith line "-"
    · simp [List.foldl_cons, ih, hunkNumberStep, refOldMap, h1]
    · by_cases h2 : pyStartsWith line "+" <;>
        simp [List.foldl_cons, ih, hunkNumberStep, refOldMap, h1, h2]

theorem foldl_hunkNumberStep_new (rest : List String) :
    ∀ st : HunkNumberState,
      (rest.foldl hunkNumberStep st).new_lines
        = st.new_lines ++ refNewMap rest st.old_no st.new_no := by
  induction rest with
  | nil => intro st; simp [refNewMap]
  | cons line rs ih =>
    intro st
    by_cases h1 : pyStartsWith line "-"
    · simp [List.foldl_cons, ih, hunkNumberStep, refNewMap, h1]
    · by_cases h2 : pyStartsWith line "+" <;>
        simp [List.foldl_cons, ih, hunkNumberStep, refNewMap, h1, h2]

theorem foldl_hunkNumberStep_max (rest : List String) :
    ∀ st : HunkNumberState,
      (rest.foldl hunkNumberStep st).max_head_length
        = maxHeadLen (refTemp rest st.old_no st.new_no) st.max_head_length := by
  induction rest with
  | nil => intro st; simp [refTemp, maxHeadLen]
  | cons line rs ih =>
    intro st
    by_cases h1 : pyStartsWith line "-"
    · simp [List.foldl_cons, ih, hunkNumberStep, refTemp, maxHeadLen, h1]
    · by_cases h2 : pyStartsWith line "+" <;>
        simp [List.foldl_cons, ih, hunkNumberStep, refTemp, maxHeadLen, h1, h2]

theorem le_maxHeadLen (t : List (String × String)) :
    ∀ m, m ≤ maxHeadLen t m ∧ ∀ p ∈ t, p.1.length ≤ maxHeadLen t m := by
  induction t with
  | nil => intro m; simp [maxHeadLen]
  | cons q rs ih =>
    intro m
    have h := ih (max m q.1.length)
    refine ⟨le_trans (le_max_left _ _) h.1, ?_⟩
    intro p hp
    rcases List.mem_cons.mp hp with hp | hp
    · subst hp
      exact le_trans (le_max_right _ _) h.1
    · exact h.2 p hp

/-! ## Claim C1 -/

/-- C1: for every hunk, the patch extender annotates each line after the
`@@` header with line-number prefixes computed by two counters
initialised to the hunk's `old_start` and `new_start`: a `-` line gets
prefix `(old_no, )`, is recorded in `old_lines[old_no]` and advances only
`old_no`; a `+` line gets prefix `( , new_no)`, is recorded in
`new_lines[new_no]` and advances only `new_no`; every other line gets
prefix `(old_no, new_no)`, is recorded in both maps and advances both
counters.  `computed_hunk_line_number` agrees with the reference walkers
`refNewMap`/`refOldMap`/`refTemp` on the maps and, up to the common
padding width of the hunk, on the annotated lines. -/
theorem C1_hunk_line_numbering (hunk : Hunk) (first : String) (rest : List String)
    (hlines : hunk.hunk_lines = first :: rest) :
    (computed_hunk_line_number hunk).2.1 = refNewMap rest hunk.old_start hunk.new_start ∧
    (computed_hunk_line_number hunk).2.2 = refOldMap rest hunk.old_start hunk.new_start ∧
    ∃ w, (computed_hunk_line_number hunk).1
          = first :: (refTemp rest hunk.old_start hunk.new_start).map
              (fun p => ljust p.1 w ++ " " ++ p.2) ∧
        ∀ p ∈ refTemp rest hunk.old_start hunk.new_start, p.1.length ≤ w := by
  simp only [computed_hunk_line_number, hlines]
  refine ⟨?_, ?_, ?_⟩
  · rw [foldl_hunkNumberStep_new]
    simp
  · rw [foldl_hunkNumberStep_old]
    simp
  · refine ⟨maxHeadLen (refTemp rest hunk.old_start hunk.new_start) 0, ?_, ?_⟩
    · rw [foldl_hunkNumberStep_temp, foldl_hunkNumberStep_max]
      simp
    · exact (le_maxHeadLen _ 0).2

/-- Witness for C1 at a concrete hunk. -/
theorem C1_hunk_line_numbering_witness :
    (computed_hunk_line_number ⟨5, 7, ["@@ -5,3 +7,4 @@", " x", "-y", "+z"]⟩).2.1
        = refNewMap [" x", "-y", "+z"] 5 7 ∧
    (computed_hunk_line_number ⟨5, 7, ["@@ -5,3 +7,4 @@", " x", "-y", "+z"]⟩).2.2
        = refOldMap [" x", "-y", "+z"] 5 7 ∧
    ∃ w, (computed_hunk_line_number ⟨5, 7, ["@@ -5,3 +7,4 @@", " x", "-y", "+z"]⟩).1
          = "@@ -5,3 +7,4 @@" :: (refTemp [" x", "-y", "+z"] 5 7).map
              (fun p => ljust p.1 w ++ " " ++ p.2) ∧
        ∀ p ∈ refTemp [" x", "-y", "+z"] 5 7, p.1.length ≤ w :=
  C1_hunk_line_numbering ⟨5, 7, ["@@ -5,3 +7,4 @@", " x", "-y", "+z"]⟩
    "@@ -5,3 +7,4 @@" [" x", "-y", "+z"] rfl

/-! ## Claim C10 -/

/-- C10: `split_hunk` partitions the input: concatenating, in order, the
`hunk_lines` of all returned hunks yields exactly the newline-split line
list of the input — no line dropped, duplicated or reordered — and the
lines preceding the first `@@` header, when some exist, form their own
leading hunk with `old_start = new_start = 0`. -/
theorem C10_split_hunk_partition (diff : String) :
    ((split_hunk diff).map Hunk.hunk_lines).flatten = pySplitLines diff ∧
    ((pySplitLines diff).takeWhile (fun l => !(pyStartsWith l "@@")) ≠ [] →
      (split_hunk diff).head?
        = some ⟨0, 0, (pySplitLines diff).takeWhile (fun l => !(pyStartsWith l "@@"))⟩) := by
  constructor
  · rw [split_hunk, splitHunkLoop_flatten]
    simp
  · intro h
    rw [split_hunk]
    have := splitHunkLoop_head (pySplitLines diff) [] (by simpa using h)
    simpa using this

/-- Witness for C10 at a concrete diff with a leading context block. -/
theorem C10_split_hunk_partition_witness :
    ((split_hunk "ctx\n@@ -1 +2 @@\nx").map Hunk.hunk_lines).flatten
        = pySplitLines "ctx\n@@ -1 +2 @@\nx" ∧
    (split_hunk "ctx\n@@ -1 +2 @@\nx").head? = some ⟨0, 0, ["ctx"]⟩ := by
  have h := C10_split_hunk_partition "ctx\n@@ -1 +2 @@\nx"
  exact ⟨h.1, (h.2 (by decide)).trans (by decide)⟩

/-! ## Claim C9 -/

/-- The concrete code extensions never appear in the exclude set. -/
theorem code_exclude_disjoint (s : String) :
    s ∈ CODE_EXTENSIONS → s ∉ EXCLUDE_EXTENSIONS := by
  intro h
  fin_cases h <;> decide

/-- C9 counterexample: a deleted `.py` record with a non-empty patch is
kept by the claim's rule (its extension is in the code set and it
carries none of the too_large/collapsed/generated flags) but
`filter_code_files` drops it, because the source also drops every
record with `deleted_file` set. -/
theorem C9_filter_counterexample :
    claimKeepRule ⟨"x", "a.py", "a.py", false, false, true, false, false, false⟩ = true ∧
    filter_code_files [⟨"x", "a.py", "a.py", false, false, true, false, false, false⟩] = [] := by
  decide

/-- The source predicate agrees pointwise with the claim's rule once the
deleted-file drop is added (using that the code and exclude extension
sets are disjoint). -/
theorem keep_pointwise (item : GithubDiffItem) :
    githubKeepPred item = amendedKeepRule item := by
  unfold githubKeepPred amendedKeepRule claimKeepRule
  cases he : fileExt item.new_path with
  | none =>
    simp [extInList, Bool.and_assoc]
  | some s =>
    by_cases hc : s ∈ CODE_EXTENSIONS
    · have hx : s ∉ EXCLUDE_EXTENSIONS := code_exclude_disjoint s hc
      simp [extInList, hc, hx, Bool.and_assoc]
    · by_cases hx : s ∈ EXCLUDE_EXTENSIONS <;> simp [extInList, hc, hx, Bool.and_assoc]

/-- C9 (amended): the normaliser keeps a record if and only if it is not
deleted, carries none of the too_large/collapsed/generated flags, and
its extension is in the code set or (its extension is not in the exclude
set and its patch text is non-empty; UTF-8 decodability is automatic for
text records). -/
theorem C9_filter_amended (items : List GithubDiffItem) :
    filter_code_files items = items.filter amendedKeepRule := by
  unfold filter_code_files
  exact List.filter_congr (fun item _ => keep_pointwise item)

/-! ## Claim C5 -/

/-- C5 counterexample: on the GitHub variant, with the configured webhook
secret empty and a signature header present, `_verify_github_signature`
accepts the request without checking anything — it does not fail closed.
(The `hmacHex` argument is irrelevant on this path.) -/
theorem C5_fail_closed_counterexample :
    verify_github_signature (fun _ _ => "") "" (some "sha256=feedface") "body"
      = Except.ok () := rfl

/-- C5 (amended): the GitLab variant fails closed — an empty configured
secret rejects every request with a 400 configuration error — but the
GitHub variant fails open: with an empty secret and any non-empty
signature header the request is accepted unchecked.  A missing (or
empty) signature header is always rejected. -/
theorem C5_fail_closed_amended :
    (∀ token, verify_gitlab_signature "" token
        = Except.error (400, "Missing GITLAB_WEBHOOK_SECRET configuration")) ∧
    (∀ (hmacHex : String → String → String) (sig payload : String), sig ≠ "" →
      verify_github_signature hmacHex "" (some sig) payload = Except.ok ()) ∧
    (∀ (hmacHex : String → String → String) (secret payload : String),
      verify_github_signature hmacHex secret none payload
        = Except.error "Missing X-Hub-Signature-256 header") := by
  refine ⟨fun token => rfl, fun hmacHex sig payload hs => ?_, fun hmacHex secret payload => rfl⟩
  unfold verify_github_signature
  rw [if_neg (by simpa using hs)]
  simp

/-- Witness for C5 (amended) at concrete inputs. -/
theorem C5_fail_closed_amended_witness :
    verify_gitlab_signature "" (some "tok")
        = Except.error (400, "Missing GITLAB_WEBHOOK_SECRET configuration") ∧
    verify_github_signature (fun _ _ => "h") "" (some "sha256=x") "b" = Except.ok () ∧
    verify_github_signature (fun _ _ => "h") "secret" none "b"
        = Except.error "Missing X-Hub-Signature-256 header" :=
  ⟨C5_fail_closed_amended.1 (some "tok"),
   C5_fail_closed_amended.2.1 (fun _ _ => "h") "sha256=x" "b" (by decide),
   C5_fail_closed_amended.2.2 (fun _ _ => "h") "secret" "b"⟩

/-! ## Claim C6 -/

/-- C6 counterexample: a GitHub pull-request webhook with action
`opened`, `draft = false` and title `"WIP: foo"` passes the filtering
stage (`proceed`), i.e. the handler goes on to fetch and review it — the
GitHub handler never consults the title, so a WIP-titled non-draft PR is
not skipped. -/
theorem C6_draft_skip_counterexample :
    githubWebhookGate (some "pull_request") ⟨"opened", false, "WIP: foo"⟩
      = WebhookDecision.proceed := by
  decide

/-- C6 (amended): the GitLab handler skips an accepted merge-request
webhook when the `work_in_progress` flag is set or the title starts with
`wip` or `draft` case-insensitively, while the GitHub handler skips only
on the `draft` flag (the title is never checked); in both cases the
skipped response is returned before any fetch or LLM call. -/
theorem C6_draft_skip_amended :
    (∀ attrs : GitlabMRAttrs,
      attrs.action ∈ (["open", "reopen", "update"] : List String) →
      attrs.state ∈ (["opened", "open"] : List String) →
      (attrs.work_in_progress
        || pyStartsWith (asciiLower attrs.title) "wip"
        || pyStartsWith (asciiLower attrs.title) "draft") = true →
      gitlabWebhookGate "merge_request" attrs = WebhookDecision.skipped "draft/WIP") ∧
    (∀ payload : GithubPRPayload,
      payload.action ∈ (["opened", "reopened", "synchronize"] : List String) →
      payload.draft = true →
      githubWebhookGate (some "pull_request") payload
        = WebhookDecision.skipped "draft PR") := by
  constructor
  · intro attrs ha hs hd
    unfold gitlabWebhookGate
    rw [if_neg (by simp), if_neg (by simp [ha, hs]), if_pos hd]
  · intro payload ha hd
    unfold githubWebhookGate
    rw [if_neg (by simp), if_neg (by simp [ha]), if_pos hd]

/-- Witness for C6 (amended) at concrete webhook payloads. -/
theorem C6_draft_skip_amended_witness :
    gitlabWebhookGate "merge_request" ⟨"update", "opened", "WIP: foo", false⟩
        = WebhookDecision.skipped "draft/WIP" ∧
    githubWebhookGate (some "pull_request") ⟨"opened", true, "feat: x"⟩
        = WebhookDecision.skipped "draft PR" :=
  ⟨C6_draft_skip_amended.1 ⟨"update", "opened", "WIP: foo", false⟩
      (by decide) (by decide) (by decide),
   C6_draft_skip_amended.2 ⟨"opened", true, "feat: x"⟩ (by decide) rfl⟩

/-! ## Replace / substring lemmas for the publisher claims -/

theorem mem_replaceGo (pat rep : List Char) :
    ∀ (fuel : Nat) (l : List Char), ∀ c, c ∈ replaceGo pat rep fuel l → c ∈ l ∨ c ∈ rep := by
  intro fuel
  induction fuel with
  | zero =>
    intro l c hc
    cases l with
    | nil => simp [replaceGo] at hc
    | cons a rest => exact Or.inl (by simpa [replaceGo] using hc)
  | succ n ih =>
    intro l c hc
    cases l with
    | nil => simp [replaceGo] at hc
    | cons a rest =>
      rw [replaceGo] at hc
      split at hc
      · rcases List.mem_append.mp hc with hc | hc
        · exact Or.inr hc
        · rcases ih _ c hc with hc | hc
          · exact Or.inl (List.mem_cons_of_mem _ (List.mem_of_mem_drop hc))
          · exact Or.inr hc
      · rcases List.mem_cons.mp hc with hc | hc
        · exact Or.inl (hc ▸ List.mem_cons_self _ _)
        · rcases ih _ c hc with hc | hc
          · exact Or.inl (List.mem_cons_of_mem _ hc)
          · exact Or.inr hc

theorem isSubstr_iff (pat s : String) :
    isSubstr pat s = true ↔ ∃ u v, s.data = u ++ pat.data ++ v := by
  unfold isSubstr
  rw [List.any_eq_true]
  constructor
  · rintro ⟨t, ht, hp⟩
    rw [List.mem_tails] at ht
    obtain ⟨u, hu⟩ := ht
    obtain ⟨v, hv⟩ := List.isPrefixOf_iff_prefix.mp hp
    exact ⟨u, v, by rw [← hu, ← hv]; simp⟩
  · rintro ⟨u, v, huv⟩
    refine ⟨pat.data ++ v, ?_, ?_⟩
    · rw [List.mem_tails]
      exact ⟨u, by rw [huv, List.append_assoc]⟩
    · exact List.isPrefixOf_iff_prefix.mpr ⟨v, rfl⟩

theorem mem_pyReplace (s pat rep : String) (c : Char) :
    c ∈ (pyReplace s pat rep).data → c ∈ s.data ∨ c ∈ rep.data := by
  unfold pyReplace
  split
  · exact Or.inl
  · exact fun hc => mem_replaceGo pat.data rep.data s.data.length s.data c hc

/-- A published comment body built from `'!'`-free pieces never contains
the idempotency marker (the marker contains `'!'` while the bot name,
the fixed table template and marker-free review fields do not). -/
theorem no_bang_body (bot hd ct : String) (h1 : '!' ∉ bot.data)
    (h2 : '!' ∉ hd.data) (h3 : '!' ∉ ct.data) :
    isSubstr AI_COMMENT_MARKER (bot ++ "\n\n" ++ issueCommentMarkdown hd ct) = false := by
  have hbody : '!' ∉ (bot ++ "\n\n" ++ issueCommentMarkdown hd ct).data := by
    intro hmem
    have hdata : (bot ++ "\n\n" ++ issueCommentMarkdown hd ct).data
        = bot.data ++ "\n\n".data ++ (issueCommentMarkdown hd ct).data := rfl
    rw [hdata] at hmem
    rcases List.mem_append.mp hmem with hmem | hmem
    · rcases List.mem_append.mp hmem with hmem | hmem
      · exact h1 hmem
      · revert hmem; decide
    · unfold issueCommentMarkdown at hmem
      rcases mem_pyReplace _ _ _ _ hmem with hmem | hmem
      · rcases mem_pyReplace _ _ _ _ hmem with hmem | hmem
        · revert hmem; decide
        · exact h2 hmem
      · exact h3 hmem
  by_contra hc
  rw [Bool.not_eq_false] at hc
  obtain ⟨u, v, huv⟩ := (isSubstr_iff _ _).mp hc
  apply hbody
  rw [huv]
  have hbang : '!' ∈ AI_COMMENT_MARKER.data := by decide
  simp [hbang]

/-! ## Claim C3 -/

/-- C3 counterexample: the bodies the Publisher actually produces in
comment mode — on both forge variants — contain the idempotency marker
`<!-- powered by seele-review -->` zero times, not exactly once: neither
publisher ever inserts it. -/
theorem C3_marker_counterexample :
    (githubPublishComments "cid" "🤖 AI Review Bot" [c3Item] [c3Review]).map
        (fun c => isSubstr AI_COMMENT_MARKER c.body) = [false] ∧
    isSubstr AI_COMMENT_MARKER
        (gitlabLineComment "🤖 AI Review Bot" ⟨"b", "h", "s"⟩ "a.py" "a.py" 3
          (issueCommentMarkdown "hd" "ct") ReviewType.new).1 = false := by
  decide

/-- C3 (amended): no body produced by the Publisher contains the
idempotency marker: on both forge variants the comment-mode body is the
bot signature plus the rendered issue table, and whenever the bot name
and the review's issue fields are free of the marker's `'!'` character
the published body contains the marker zero times. -/
theorem C3_marker_amended :
    (∀ (commit bot : String) (items : List GithubDiffItem) (r : Review)
        (c : GithubReviewCommentCall),
      '!' ∉ bot.data → '!' ∉ r.issue_header.data → '!' ∉ r.issue_content.data →
      githubCommentFor commit bot items r = some c →
      isSubstr AI_COMMENT_MARKER c.body = false) ∧
    (∀ (bot : String) (refs : DiffRefs) (np op : String) (line : Int)
        (hd ct : String) (t : ReviewType),
      '!' ∉ bot.data → '!' ∉ hd.data → '!' ∉ ct.data →
      isSubstr AI_COMMENT_MARKER
        (gitlabLineComment bot refs np op line (issueCommentMarkdown hd ct) t).1 = false) := by
  constructor
  · intro commit bot items r c h1 h2 h3 h
    unfold githubCommentFor at h
    split at h
    · exact absurd h (by simp)
    · split at h
      · cases h
        exact no_bang_body bot r.issue_header r.issue_content h1 h2 h3
      · cases h
        exact no_bang_body bot r.issue_header r.issue_content h1 h2 h3
  · intro bot refs np op line hd ct t h1 h2 h3
    exact no_bang_body bot hd ct h1 h2 h3

/-- Witness for C3 (amended) at concrete inputs on both variants. -/
theorem C3_marker_amended_witness :
    isSubstr AI_COMMENT_MARKER c3WitnessCall.body = false ∧
    isSubstr AI_COMMENT_MARKER
      (gitlabLineComment "bot" ⟨"b", "h", "s"⟩ "a.py" "a.py" 3
        (issueCommentMarkdown "hd" "ct") ReviewType.new).1 = false :=
  ⟨C3_marker_amended.1 "cid" "bot" [c3Item] c3Review c3WitnessCall
      (by decide) (by decide) (by decide) rfl,
   C3_marker_amended.2 "bot" ⟨"b", "h", "s"⟩ "a.py" "a.py" 3 "hd" "ct"
      ReviewType.new (by decide) (by decide) (by decide)⟩

/-! ## Claim C4 -/

/-- C4 counterexample: for a `type=old` review whose old and new paths
differ, the GitHub publisher posts the comment with `path = new_path`
(`"b.py"`), not `old_path` (`"a.py"`), even though the side is `LEFT` —
refuting "when type=old it is anchored to old_path". -/
theorem C4_anchor_counterexample :
    (githubPublishComments "cid" "bot" [c4Item] [c4Review]).map
        (fun c => (c.path, c.side, c.line)) = [("b.py", "LEFT", (4 : Int))] ∧
    c4Review.old_path = "a.py" ∧ ("b.py" : String) ≠ "a.py" := by
  refine ⟨by decide, rfl, by decide⟩

/-- C4 (amended): every comment-mode call anchors at the review's
`end_line` and the side matches the type (`RIGHT` iff `type=new`), but
the GitHub publisher sends `path = new_path` for both sides; the GitLab
position carries both paths unconditionally and sets exactly one of
`new_line`/`old_line` (`new_line` iff `type=new`, `old_line` iff
`type=old`). -/
theorem C4_anchor_amended :
    (∀ (commit bot : String) (items : List GithubDiffItem) (r : Review)
        (c : GithubReviewCommentCall),
      githubCommentFor commit bot items r = some c →
      c.line = r.end_line ∧ c.path = r.new_path ∧
      c.side = (if r.type = ReviewType.new then "RIGHT" else "LEFT")) ∧
    (∀ (bot : String) (refs : DiffRefs) (np op : String) (line : Int)
        (content : String) (t : ReviewType),
      ((gitlabLineComment bot refs np op line content t).2.new_line
          = (if t = ReviewType.new then some line else none)) ∧
      ((gitlabLineComment bot refs np op line content t).2.old_line
          = (if t = ReviewType.old then some line else none)) ∧
      (((gitlabLineComment bot refs np op line content t).2.new_line.isSome)
          ≠ ((gitlabLineComment bot refs np op line content t).2.old_line.isSome)) ∧
      (gitlabLineComment bot refs np op line content t).2.new_path = np ∧
      (gitlabLineComment bot refs np op line content t).2.old_path = op) := by
  constructor
  · intro commit bot items r c h
    unfold githubCommentFor at h
    split at h
    · exact absurd h (by simp)
    · split at h
      · cases h
        simp_all
      · cases h
        simp_all
  · intro bot refs np op line content t
    cases t <;> simp [gitlabLineComment]

/-- Witness for C4 (amended) at a concrete review. -/
theorem C4_anchor_amended_witness :
    c4WitnessCall.line = 4 ∧ c4WitnessCall.path = "b.py" ∧
    c4WitnessCall.side = "LEFT" := by
  have h := C4_anchor_amended.1 "cid" "bot" [c4Item] c4Review c4WitnessCall rfl
  exact ⟨h.1, h.2.1, by simpa using h.2.2⟩

/-! ## Claim C8 -/

/-- C8 counterexample: with a parser that fails on the raw block with
error `original` and fails on the repaired block with error
`retry failed`, the flow reports `fixApplied = true` (set before the
retry, so it does not track success) and propagates the retry's error —
not the original one — refuting both halves of the claim's failure
case. -/
theorem C8_repair_counterexample :
    (yamlParseFlow (α := Unit)
        (fun s => if s = "- newPath: x" then ParseOutcome.yamlError "original"
                  else ParseOutcome.yamlError "retry failed") "- newPath: x")
      = ⟨"- newPath: x", some "  - newPath: |", none, some "retry failed", true⟩ ∧
    ("retry failed" : String) ≠ "original" :=
  ⟨by decide, by decide⟩

/-- C8 (amended): whenever the direct parse raises a YAML error, the
repair pass is attempted and the parse retried, with
`fixApplied = true` and `fixedContent` set regardless of the retry's
outcome; on a successful retry the parsed result is stored and no error
is reported, and when the retry also fails the retry's error — not the
original one — is propagated. -/
theorem C8_repair_amended {α : Type} (parse : String → ParseOutcome α)
    (content e : String) (hfail : parse content = ParseOutcome.yamlError e) :
    (yamlParseFlow parse content).fixApplied = true ∧
    (yamlParseFlow parse content).fixedContent = some (fix_yaml_format_issues content) ∧
    (∀ p, parse (fix_yaml_format_issues content) = ParseOutcome.ok p →
      (yamlParseFlow parse content).parsed = p ∧
      (yamlParseFlow parse content).error = none) ∧
    (∀ e2, parse (fix_yaml_format_issues content) = ParseOutcome.yamlError e2 →
      (yamlParseFlow parse content).error = some e2) ∧
    (∀ e2, parse (fix_yaml_format_issues content) = ParseOutcome.otherError e2 →
      (yamlParseFlow parse content).error = some e2) := by
  cases hp : parse (fix_yaml_format_issues content) <;>
    simp [yamlParseFlow, hfail, hp]

/-- Witness for C8 (amended): a parser failing only on the raw block
succeeds after repair, with `fixApplied` set and no error. -/
theorem C8_repair_amended_witness :
    (yamlParseFlow c8Parse "- newPath: x").fixApplied = true ∧
    (yamlParseFlow c8Parse "- newPath: x").parsed = some () ∧
    (yamlParseFlow c8Parse "- newPath: x").error = none := by
  have h := C8_repair_amended c8Parse "- newPath: x" "e1" (by decide)
  have h3 := h.2.2.1 (some ()) (by decide)
  exact ⟨h.1, h3.1, h3.2⟩

/-! ## Claim C7 -/

theorem string_data_append (a b : String) : (a ++ b).data = a.data ++ b.data := rfl

theorem foldl_sep_data (sep : String) (more : List String) :
    ∀ acc : String,
      ∃ v, (more.foldl (fun acc s => acc ++ sep ++ s) acc).data = acc.data ++ v := by
  induction more with
  | nil => intro acc; exact ⟨[], by simp⟩
  | cons m ms ih =>
    intro acc
    obtain ⟨v, hv⟩ := ih (acc ++ sep ++ m)
    refine ⟨sep.data ++ m.data ++ v, ?_⟩
    rw [List.foldl_cons, hv, string_data_append, string_data_append]
    simp

/-- A `'\n\n'`-join whose first part is `pre` contains `pre`. -/
theorem isSubstr_join2_head (pre : String) (more : List String) :
    isSubstr pre (join2 (pre :: more)) = true := by
  rw [isSubstr_iff]
  obtain ⟨v, hv⟩ := foldl_sep_data "\n\n" more pre
  exact ⟨[], v, hv⟩

/-- Invariant of the packing loop: once the header sits at the front of
the current chunk (or at the front of an already-flushed first chunk),
the first emitted chunk contains the header. -/
theorem packFinish_foldl_head (enc : Encoding) (limit overlap : Nat) (hdr : String)
    (files : List String) :
    ∀ st : PackState,
      ((st.chunks = [] ∧ ∃ more, st.current_chunk = hdr :: more) ∨
       (∃ c cs, st.chunks = c :: cs ∧ isSubstr hdr c = true)) →
      ∃ c cs, packFinish (files.foldl (packStep enc limit overlap) st) = c :: cs ∧
        isSubstr hdr c = true := by
  induction files with
  | nil =>
    intro st hst
    rcases hst with ⟨hch, more, hcur⟩ | ⟨c, cs, hch, hc⟩
    · refine ⟨join2 (hdr :: more), [], ?_, isSubstr_join2_head hdr more⟩
      simp [packFinish, hch, hcur]
    · rw [List.foldl_nil]
      unfold packFinish
      rw [hch]
      split
      · exact ⟨c, cs ++ [join2 st.current_chunk], by simp, hc⟩
      · exact ⟨c, cs, rfl, hc⟩
  | cons f fs ih =>
    intro st hst
    rw [List.foldl_cons]
    apply ih
    rcases hst with ⟨hch, more, hcur⟩ | ⟨c, cs, hch, hc⟩
    · have hne : st.current_chunk ≠ [] := by rw [hcur]; exact List.cons_ne_nil _ _
      unfold packStep
      by_cases h1 : count_tokens enc f > limit
      · rw [if_pos h1]
        right
        refine ⟨join2 (hdr :: more), split_by_tokens enc f limit overlap, ?_,
          isSubstr_join2_head hdr more⟩
        simp [hne, hch, hcur]
      · rw [if_neg h1]
        by_cases h2 : st.current_tokens + count_tokens enc f + 2 ≤ limit
        · rw [if_pos h2]
          left
          exact ⟨hch, more ++ [f], by simp [hcur]⟩
        · rw [if_neg h2]
          right
          exact ⟨join2 (hdr :: more), [], by simp [hne, hch, hcur],
            isSubstr_join2_head hdr more⟩
    · unfold packStep
      by_cases h1 : count_tokens enc f > limit
      · rw [if_pos h1]
        right
        refine ⟨c, ?_, ?_, hc⟩
        · exact (if st.current_chunk ≠ [] then cs ++ [join2 st.current_chunk] else cs)
            ++ split_by_tokens enc f limit overlap
        · rw [hch]
          split <;> simp
      · rw [if_neg h1]
        by_cases h2 : st.current_tokens + count_tokens enc f + 2 ≤ limit
        · rw [if_pos h2]
          right
          exact ⟨c, cs, by simp [hch], hc⟩
        · rw [if_neg h2]
          right
          refine ⟨c, (if st.current_chunk ≠ [] then cs ++ [join2 st.current_chunk] else cs), ?_, hc⟩
          rw [hch]
          split <;> simp

/-- C7 counterexample: a diff over the 60-token budget splits into two
chunks at `## new_path:` boundaries, and the second chunk does not
contain the leading commit-message header — only the first chunk
carries it. -/
theorem C7_header_counterexample :
    count_tokens charEncoding c7Diff > 60 ∧
    split_diff_by_files charEncoding 60 200 c7Diff =
      ["commit message: m\n\n## new_path: a\nAA",
       "## new_path: b\nBBBBBBBBBBBBBBBBBBBBBBBBBBBBBB"] ∧
    isSubstr "commit message: m"
      ((split_diff_by_files charEncoding 60 200 c7Diff).getD 1 "") = false := by
  refine ⟨by decide, by decide, by decide⟩

/-- C7 (amended): when the diff has a non-empty leading header before
the first file marker, the FIRST emitted chunk carries the header
(later chunks are file segments to which the header is never added). -/
theorem C7_header_amended (enc : Encoding) (limit overlap : Nat) (diff_content : String)
    (hhdr : diffHeader diff_content ≠ "") :
    ∃ c cs, split_diff_by_files enc limit overlap diff_content = c :: cs ∧
      isSubstr (diffHeader diff_content) c = true := by
  unfold split_diff_by_files
  rw [if_pos hhdr]
  apply packFinish_foldl_head
  left
  exact ⟨rfl, [], rfl⟩

/-- Witness for C7 (amended) at the concrete diff. -/
theorem C7_header_amended_witness :
    ∃ c cs, split_diff_by_files charEncoding 60 200 c7Diff = c :: cs ∧
      isSubstr (diffHeader c7Diff) c = true :=
  C7_header_amended charEncoding 60 200 c7Diff (by decide)

/-! ## Claim C2 -/

theorem reviewKey_mergeContentInto (e r : PyReview) :
    reviewKey (mergeContentInto e r) = reviewKey e := by
  unfold mergeContentInto
  split
  · split
    · rfl
    · split
      · rfl
      · rfl
  · rfl

theorem reviewKey_foldl_merge (l : List PyReview) :
    ∀ e : PyReview, reviewKey (l.foldl mergeContentInto e) = reviewKey e := by
  induction l with
  | nil => intro e; rfl
  | cons x xs ih =>
    intro e
    rw [List.foldl_cons, ih, reviewKey_mergeContentInto]

theorem specMergeSeen_congr (reviews : List PyReview) :
    ∀ seen seen' : List RKey, (∀ k, k ∈ seen ↔ k ∈ seen') →
      specMergeSeen reviews seen = specMergeSeen reviews seen' := by
  induction reviews with
  | nil => intro seen seen' _; rfl
  | cons r rest ih =>
    intro seen seen' h
    unfold specMergeSeen
    by_cases hm : reviewKey r ∈ seen
    · rw [if_pos hm, if_pos ((h _).mp hm)]
      exact ih seen seen' h
    · rw [if_neg hm, if_neg (fun hc => hm ((h _).mpr hc))]
      congr 1
      apply ih
      intro k
      simp [List.mem_cons, h k]

theorem specMergeSeen_keys (reviews : List PyReview) :
    ∀ seen : List RKey,
      ((specMergeSeen reviews seen).map Prod.fst).Nodup ∧
      ∀ k ∈ (specMergeSeen reviews seen).map Prod.fst, k ∉ seen := by
  induction reviews with
  | nil => intro seen; simp [specMergeSeen]
  | cons r rest ih =>
    intro seen
    unfold specMergeSeen
    by_cases hm : reviewKey r ∈ seen
    · rw [if_pos hm]
      exact ih seen
    · rw [if_neg hm]
      obtain ⟨hnd, hnin⟩ := ih (reviewKey r :: seen)
      refine ⟨?_, ?_⟩
      · simp only [List.map_cons, List.nodup_cons]
        refine ⟨fun hc => ?_, hnd⟩
        exact (hnin _ hc) (List.mem_cons_self _ _)
      · intro k hk
        simp only [List.map_cons, List.mem_cons] at hk
        rcases hk with rfl | hk
        · exact hm
        · exact fun hc => (hnin k hk) (List.mem_cons_of_mem _ hc)

theorem specMergeSeen_stable (reviews : List PyReview) :
    ∀ seen : List RKey, ∀ p ∈ specMergeSeen reviews seen, reviewKey p.2 = p.1 := by
  induction reviews with
  | nil => intro seen p hp; simp [specMergeSeen] at hp
  | cons r rest ih =>
    intro seen p hp
    unfold specMergeSeen at hp
    by_cases hm : reviewKey r ∈ seen
    · rw [if_pos hm] at hp
      exact ih seen p hp
    · rw [if_neg hm] at hp
      rcases List.mem_cons.mp hp with rfl | hp
      · exact reviewKey_foldl_merge _ r
      · exact ih _ p hp

theorem mergeReviewsLoop_spec (rest : List PyReview) :
    ∀ acc : List (RKey × PyReview), (∀ p ∈ acc, reviewKey p.2 = p.1) →
      mergeReviewsLoop rest acc
        = acc.map (fun p => (p.1,
            (rest.filter (fun x => decide (reviewKey x = p.1))).foldl mergeContentInto p.2))
          ++ specMergeSeen rest (acc.map Prod.fst) := by
  induction rest with
  | nil =>
    intro acc _
    simp [mergeReviewsLoop, specMergeSeen]
  | cons r rs ih =>
    intro acc hacc
    unfold mergeReviewsLoop
    by_cases hm : acc.any (fun p => decide (p.1 = reviewKey r)) = true
    · rw [if_pos hm]
      have hmem : reviewKey r ∈ acc.map Prod.fst := by
        rcases List.any_eq_true.mp hm with ⟨p, hp, hdec⟩
        have hp1 : p.1 = reviewKey r := of_decide_eq_true hdec
        exact hp1 ▸ List.mem_map_of_mem Prod.fst hp
      have hstable' : ∀ p ∈ acc.map (fun p =>
          if p.1 = reviewKey r then (p.1, mergeContentInto p.2 r) else p),
          reviewKey p.2 = p.1 := by
        intro p hp
        rcases List.mem_map.mp hp with ⟨q, hq, hqe⟩
        by_cases hqk : q.1 = reviewKey r
        · rw [if_pos hqk] at hqe
          rw [← hqe]
          simpa [reviewKey_mergeContentInto] using hacc q hq
        · rw [if_neg hqk] at hqe
          rw [← hqe]
          exact hacc q hq
      rw [ih _ hstable']
      have hkeys' : (acc.map (fun p =>
          if p.1 = reviewKey r then (p.1, mergeContentInto p.2 r) else p)).map Prod.fst
          = acc.map Prod.fst := by
        rw [List.map_map]
        apply List.map_congr_left
        intro q _
        by_cases hqk : q.1 = reviewKey r <;> simp [hqk]
      rw [hkeys']
      have hspec : specMergeSeen (r :: rs) (acc.map Prod.fst)
          = specMergeSeen rs (acc.map Prod.fst) := by
        simp only [specMergeSeen]
        rw [if_pos hmem]
      rw [hspec]
      congr 1
      rw [List.map_map]
      apply List.map_congr_left
      intro q hq
      by_cases hqk : q.1 = reviewKey r
      · simp only [Function.comp, if_pos hqk]
        rw [List.filter_cons]
        have hd : decide (reviewKey r = q.1) = true := decide_eq_true hqk.symm
        rw [hd]
        simp
      · simp only [Function.comp, if_neg hqk]
        rw [List.filter_cons]
        have hd : decide (reviewKey r = q.1) = false :=
          decide_eq_false (fun hc => hqk hc.symm)
        rw [hd]
        simp
    · rw [if_neg hm]
      have hnmem : reviewKey r ∉ acc.map Prod.fst := by
        intro hc
        apply hm
        rcases List.mem_map.mp hc with ⟨q, hq, hqe⟩
        exact List.any_eq_true.mpr ⟨q, hq, decide_eq_true hqe⟩
      have hstable' : ∀ p ∈ acc ++ [(reviewKey r, r)], reviewKey p.2 = p.1 := by
        intro p hp
        rcases List.mem_append.mp hp with hp | hp
        · exact hacc p hp
        · simp only [List.mem_singleton] at hp
          rw [hp]
      rw [ih _ hstable']
      have hspec : specMergeSeen (r :: rs) (acc.map Prod.fst)
          = (reviewKey r,
              (rs.filter (fun x => decide (reviewKey x = reviewKey r))).foldl mergeContentInto r)
            :: specMergeSeen rs (reviewKey r :: acc.map Prod.fst) := by
        simp only [specMergeSeen]
        rw [if_neg hnmem]
      rw [hspec]
      have hseen : specMergeSeen rs ((acc ++ [(reviewKey r, r)]).map Prod.fst)
          = specMergeSeen rs (reviewKey r :: acc.map Prod.fst) := by
        apply specMergeSeen_congr
        intro k
        simp [or_comm]
      rw [List.map_append, hseen]
      have hmapA : acc.map (fun p => (p.1,
            (rs.filter (fun x => decide (reviewKey x = p.1))).foldl mergeContentInto p.2))
          = acc.map (fun p => (p.1,
            ((r :: rs).filter (fun x => decide (reviewKey x = p.1))).foldl mergeContentInto p.2)) := by
        apply List.map_congr_left
        intro q hq
        have hne : reviewKey r ≠ q.1 :=
          fun hc => hnmem (hc ▸ List.mem_map_of_mem Prod.fst hq)
        rw [List.filter_cons]
        have hd : decide (reviewKey r = q.1) = false := decide_eq_false hne
        rw [hd]
        simp
      rw [hmapA]
      simp [List.filter_cons]

theorem exists_not_white_dropWhile (l : List Char)
    (h : ∃ c ∈ l, pyWhite c = false) :
    ∃ c ∈ l.dropWhile pyWhite, pyWhite c = false := by
  induction l with
  | nil => simp at h
  | cons a rest ih =>
    rw [List.dropWhile_cons]
    by_cases ha : pyWhite a = true
    · rw [if_pos ha]
      apply ih
      obtain ⟨c, hc, hcw⟩ := h
      rcases List.mem_cons.mp hc with rfl | hc
      · rw [ha] at hcw
        cases hcw
      · exact ⟨c, hc, hcw⟩
    · rw [if_neg ha]
      exact ⟨a, List.mem_cons_self _ _, by simpa using ha⟩

theorem pyStrip_ne_of_not_white (s : String) (h : ∃ c ∈ s.data, pyWhite c = false) :
    pyStrip s ≠ "" := by
  unfold pyStrip
  intro hc
  have hL : (((s.data.dropWhile pyWhite).reverse.dropWhile pyWhite).reverse)
      = ([] : List Char) := congrArg String.data hc
  obtain ⟨c1, hc1, hw1⟩ := exists_not_white_dropWhile s.data h
  obtain ⟨c2, hc2, hw2⟩ := exists_not_white_dropWhile (s.data.dropWhile pyWhite).reverse
    ⟨c1, List.mem_reverse.mpr hc1, hw1⟩
  rw [List.reverse_eq_nil_iff] at hL
  rw [hL] at hc2
  exact absurd hc2 (List.not_mem_nil c2)

/-- A merged content string (with its `---` separator) survives `strip`. -/
theorem merged_ne (a b : String) :
    pyStrip (a ++ "\n---\n" ++ b) ≠ "" := by
  apply pyStrip_ne_of_not_white
  refine ⟨'-', ?_, by decide⟩
  rw [string_data_append, string_data_append]
  exact List.mem_append.mpr (Or.inl (List.mem_append.mpr (Or.inr (by decide))))

/-- The observable content of the duplicate-merge step: append with the
`---` separator and `strip`, unless the newcomer's content is empty or
already a substring of the kept content. -/
theorem reviewContent_merge (e r : PyReview) :
    reviewContent (mergeContentInto e r)
      = if ((reviewContent r != "") && !(isSubstr (reviewContent r) (reviewContent e))) = true
        then pyStrip (reviewContent e ++ "\n---\n" ++ reviewContent r)
        else reviewContent e := by
  by_cases hcond : ((reviewContent r != "") && !(isSubstr (reviewContent r) (reviewContent e))) = true
  · rw [if_pos hcond]
    unfold mergeContentInto
    rw [if_pos hcond]
    by_cases hI : e.issueContent.isSome
    · rw [if_pos hI]
      simp only [reviewContent, pyOrStr]
      rw [if_neg (merged_ne _ _)]
    · rw [if_neg hI]
      have hInone : e.issueContent = none := Option.not_isSome_iff_eq_none.mp hI
      by_cases hI2 : e.issue_content.isSome
      · rw [if_pos hI2]
        simp only [reviewContent, hInone, pyOrStr]
        rw [if_neg (merged_ne _ _)]
      · rw [if_neg hI2]
        have hI2none : e.issue_content = none := Option.not_isSome_iff_eq_none.mp hI2
        simp only [reviewContent, hInone, hI2none, pyOrStr, Option.getD_some]
  · rw [if_neg hcond]
    unfold mergeContentInto
    rw [if_neg hcond]

/-- C2: after merging the per-chunk review lists, (i) the output equals
the claim's reference merge — the first occurrence of each identity key
`(new_path, start_line, end_line, type)` is kept, with every later
occurrence with the same key folded into it; (ii) each identity key
occurs at most once in the output; and (iii) the fold step appends the
later occurrence's issue content to the kept content with a `---`
separator except when it is empty or already a substring of the kept
content. -/
theorem C2_merge_reviews_dedup (chunk_results : List ChunkResult) :
    merge_reviews chunk_results
      = (specMergeSeen ((chunk_results.map ChunkResult.result).flatten) []).map Prod.snd ∧
    ((merge_reviews chunk_results).map reviewKey).Nodup ∧
    (∀ e r, reviewContent (mergeContentInto e r)
        = if ((reviewContent r != "") && !(isSubstr (reviewContent r) (reviewContent e))) = true
          then pyStrip (reviewContent e ++ "\n---\n" ++ reviewContent r)
          else reviewContent e) := by
  have hmain : merge_reviews chunk_results
      = (specMergeSeen ((chunk_results.map ChunkResult.result).flatten) []).map Prod.snd := by
    unfold merge_reviews
    rw [mergeReviewsLoop_spec _ [] (by simp)]
    simp
  refine ⟨hmain, ?_, fun e r => reviewContent_merge e r⟩
  rw [hmain]
  have hkeys : (((specMergeSeen ((chunk_results.map ChunkResult.result).flatten) []).map
        Prod.snd).map reviewKey)
      = (specMergeSeen ((chunk_results.map ChunkResult.result).flatten) []).map Prod.fst := by
    rw [List.map_map]
    apply List.map_congr_left
    intro p hp
    exact specMergeSeen_stable _ [] p hp
  rw [hkeys]
  exact (specMergeSeen_keys _ []).1

end Seele
